import Mathlib

/-!
Verification development for the kernel-dispatch layer and batch-type trait
system of the Shark/remora linear-algebra code base.

The embedding covers three source files:
 - kernels/clBlast/syrk.hpp  (remora::kernels::syrk, device backend)
 - kernels/gpu/dot.hpp       (remora::bindings::dot, device backend)
 - Data/BatchInterface.h     (shark::Batch trait specializations)

Machine values of the numeric element type are embedded as Int; matrices are
shallow records carrying their two sizes and an entry function; device
buffers, queues and events are abstracted away, while the parameter lists
passed to the backend routine are recorded explicitly so that claims about
the issued call can be stated.
-/

namespace remora

/-- Orientation tag of a matrix expression (row_major / column_major in the
source traits). -/
inductive Orientation where
  | row_major : Orientation
  | column_major : Orientation
deriving DecidableEq, Repr

/-- CLBlast transpose flag (clblast::Transpose). -/
inductive Transpose where
  | kNo : Transpose
  | kYes : Transpose
deriving DecidableEq, Repr

/-- CLBlast layout flag (clblast::Layout). -/
inductive Layout where
  | kRowMajor : Layout
  | kColMajor : Layout
deriving DecidableEq, Repr

/-- CLBlast triangle flag (clblast::Triangle). -/
inductive Triangle where
  | kUpper : Triangle
  | kLower : Triangle
deriving DecidableEq, Repr

/-- CLBlast status code (clblast::StatusCode): kSuccess or some error code. -/
inductive StatusCode where
  | kSuccess : StatusCode
  | kError : Nat → StatusCode
deriving DecidableEq, Repr

/-- Shallow embedding of a dense matrix expression: its two sizes
(size1 = rows, size2 = cols as in the source) and an entry function. -/
structure Mat where
  size1 : Nat
  size2 : Nat
  entry : Nat → Nat → Int

/-- Entry (i, j) of the product A * A^T where the inner dimension is k,
that is, the sum over l < k of A(i,l) * A(j,l). -/
def dotAAT (A : Mat) (k i j : Nat) : Int :=
  ((List.range k).map (fun l => A.entry i l * A.entry j l)).sum

/-- Membership of index (i, j) in the half selected by a triangle flag. -/
def triangleContains (t : Triangle) (i j : Nat) : Bool :=
  match t with
  | Triangle.kUpper => decide (i ≤ j)
  | Triangle.kLower => decide (j ≤ i)

/-- Triangle flag derived from the compile-time Upper template flag, as in
the source line `auto triangular = Upper? Triangle::kUpper : Triangle::kLower`. -/
def declaredTriangle (Upper : Bool) : Triangle :=
  if Upper then Triangle.kUpper else Triangle.kLower

/-- The flat parameter list handed to the native CLBlast Syrk routine:
layout, triangle, transpose flags, the shape n and inner dimension k, the
scale alpha on the product term and the scale beta on the accumulate term.
Buffer handles, offsets, leading dimensions and the queue are abstracted. -/
structure SyrkCall where
  layout : Layout
  triangular : Triangle
  transA : Transpose
  n : Nat
  k : Nat
  alpha : Int
  beta : Int
deriving DecidableEq, Repr

/-- Modelled from the spec: the native CLBlast `Syrk` routine is external to
the repository; per the documented contract it computes
`C <- beta * C + alpha * A * A^T`, writing only the entries of the declared
triangular half that lie inside the n x n destination and leaving every
other entry untouched. Orientation/transpose resolution of the raw buffers
is the responsibility of the wrapper and is abstracted here: the routine
acts on the logical matrices. -/
def clblastSyrk (triangular : Triangle) (n k : Nat) (alpha : Int) (A : Mat)
    (beta : Int) (C : Mat) : Mat :=
  { size1 := C.size1
    size2 := C.size2
    entry := fun i j =>
      if i < n ∧ j < n ∧ triangleContains triangular i j = true then
        alpha * dotAAT A k i j + beta * C.entry i j
      else
        C.entry i j }

/-- Observable outcome of one call of the syrk kernel wrapper: the contents
of the destination buffer, the list of calls issued to the native backend
routine, whether a size check fired, and whether the call ended in the
fatal assert on a failing backend status. -/
structure SyrkResult where
  C : Mat
  backendCalls : List SyrkCall
  sizeError : Bool
  fatal : Bool

namespace kernels

/-- Embedding of remora::kernels::syrk from kernels/clBlast/syrk.hpp.

Source steps in order: the two REMORA_SIZE_CHECK preconditions
(`A().size1() == C().size1()` and `C().size1() == C().size2()`); derivation
of the transpose flag (`kNo` when A and C share orientation, else `kYes`),
the layout flag (from the orientation of C), and the triangle flag (from
the Upper template flag); the call of the native Syrk routine with
n = C.size1, k = A.size2, scale alpha on the product and the fixed constant
1 on the accumulate term; and `assert(code == StatusCode::kSuccess)` on the
returned status.

Modelled from the spec: the REMORA_SIZE_CHECK macro lives in
detail/check.hpp, which is not among the given sources; per the spec a
violation raises a dimension-mismatch failure before any backend call is
issued, embedded here as the early-out branch that issues no backend call
and leaves C untouched. The status returned by the external routine is a
parameter `backendStatus`. -/
def syrk (Upper : Bool) (oA oC : Orientation) (A C : Mat) (alpha : Int)
    (backendStatus : StatusCode) : SyrkResult :=
  if A.size1 = C.size1 ∧ C.size1 = C.size2 then
    { C := clblastSyrk (declaredTriangle Upper) C.size1 A.size2 alpha A 1 C
      backendCalls :=
        [{ layout := if oC = Orientation.row_major then Layout.kRowMajor else Layout.kColMajor
           triangular := declaredTriangle Upper
           transA := if oA = oC then Transpose.kNo else Transpose.kYes
           n := C.size1
           k := A.size2
           alpha := alpha
           beta := 1 }]
      sizeError := false
      fatal := if backendStatus = StatusCode.kSuccess then false else true }
  else
    { C := C, backendCalls := [], sizeError := true, fatal := true }

end kernels

/-- Modelled from the spec: boost::compute::inner_product is external to the
repository; per its documented contract it folds the initial value with the
sum of element-wise products of the two ranges, traversed in lockstep. -/
def inner_product (x y : List Int) (init : Int) : Int :=
  (List.zip x y).foldl (fun acc p => acc + p.1 * p.2) init

namespace bindings

/-- Embedding of remora::bindings::dot from kernels/gpu/dot.hpp for the
dense/dense device case: the value written into the caller-provided result
location, namely `inner_product(x.begin(), x.end(), y.begin(), value_type(0), queue)`
with the accumulation starting from the zero value of the element type. -/
def dot (x y : List Int) : Int :=
  inner_product x y 0

end bindings

end remora

namespace shark

namespace detail

/-- Embedding of shark::detail::DefaultBatch::createBatch: the source
returns `type(size, input)`, a std::vector holding `size` copies of the
blueprint input. -/
def DefaultBatch.createBatch (input : Int) (size : Nat) : List Int :=
  List.replicate size input

/-- Embedding of shark::detail::ArithmeticBatch::createBatch: the source
returns `type(size)`, a ublas vector of `size` elements whose initial
content is allocated without reading the blueprint input; the source leaves
that content unspecified, embedded here as the parameter `uninit`. -/
def ArithmeticBatch.createBatch (uninit : Int) (input : Int) (size : Nat) : List Int :=
  List.replicate size uninit

end detail

/-- Aggregate produced by the Batch specialization for blas::vector: a dense
ublas matrix whose rows are the logical elements. -/
structure DenseVectorBatch where
  size1 : Nat
  size2 : Nat
  rows : List (List Int)
deriving DecidableEq, Repr

/-- Embedding of shark::Batch for blas::vector elements, createBatchFromRange:
the source allocates `type batch(range.size(), range.begin()->size())` and
then copies the range elements row-wise with std::copy through the row-proxy
iterators. The dereference of range.begin() on an empty range is the failure
case, embedded as Option. -/
def BatchVector.createBatchFromRange (range : List (List Int)) : Option DenseVectorBatch :=
  match range.head? with
  | none => none
  | some first =>
      some { size1 := range.length, size2 := first.length, rows := range }

/-- A compressed (sparse) vector: its declared dimensionality and the list
of (index, value) pairs of stored non-zero entries. -/
structure SparseVec where
  size : Nat
  nz : List (Nat × Int)
deriving DecidableEq, Repr

/-- Number of stored non-zero entries of a compressed vector, as returned by
nonzeroElements in the source. -/
def nonzeroElements (v : SparseVec) : Nat :=
  v.nz.length

/-- Aggregate produced by the Batch specialization for compressed vectors: a
compressed ublas matrix with a pre-allocated non-zero capacity and one
compressed row per logical slot. -/
structure CompressedMatrixBatch where
  size1 : Nat
  size2 : Nat
  nnz : Nat
  rows : List (List (Nat × Int))
deriving DecidableEq, Repr

/-- Embedding of shark::Batch for compressed_vector elements,
createBatchFromRange. The source first loops over the whole range summing
`nonzeroElements(*pos)` into nnz, then allocates
`type batch(range.size(), range.begin()->size(), nnz)` and copies the range
elements row-wise with std::copy through the row-proxy iterators. No
dimensionality-consistency check appears anywhere in the source. The
dereference of range.begin() on an empty range is the failure case,
embedded as Option; the row-proxy assignment is modelled from the spec as
copying the element into its slot. -/
def BatchCompressed.createBatchFromRange (range : List SparseVec) : Option CompressedMatrixBatch :=
  let nnz := range.foldl (fun acc pos => acc + nonzeroElements pos) 0
  match range.head? with
  | none => none
  | some first =>
      some { size1 := range.length
             size2 := first.size
             nnz := nnz
             rows := range.map (fun v => v.nz) }

/-- Reading the logical elements back out of a compressed aggregate: one
compressed vector per row slot, each with the aggregate column count as its
declared dimensionality. -/
def reconstructElements (b : CompressedMatrixBatch) : List SparseVec :=
  b.rows.map (fun r => { size := b.size2, nz := r })

end shark

namespace remora

/-- Concrete 2 x 2 source matrix used by witnesses. -/
def Aex : Mat :=
  { size1 := 2
    size2 := 2
    entry := fun i j => (List.getD (List.getD [[1, 2], [3, 4]] i []) j 0 : Int) }

/-- Concrete 2 x 2 destination matrix used by witnesses. -/
def Cex : Mat :=
  { size1 := 2
    size2 := 2
    entry := fun i j => (List.getD (List.getD [[10, 11], [12, 13]] i []) j 0 : Int) }

/-- Concrete 3 x 2 matrix whose row count mismatches Cex, used by the size
check witness. -/
def Abad : Mat :=
  { size1 := 3
    size2 := 2
    entry := fun i j => (List.getD (List.getD [[1, 0], [0, 1], [2, 2]] i []) j 0 : Int) }

end remora

namespace shark

/-- Concrete range of sparse vectors with inconsistent declared
dimensionality (2 versus 3), used to settle the rejection claim. -/
def badSparseRange : List SparseVec :=
  [{ size := 2, nz := [(0, 1)] }, { size := 3, nz := [(1, 2), (2, 3)] }]

/-- Concrete range of two sparse vectors of dimensionality 4 holding 7
non-zero entries in total, used by witnesses. -/
def sparseRangeEx : List SparseVec :=
  [{ size := 4, nz := [(0, 1), (2, 3), (3, 5)] },
   { size := 4, nz := [(0, 2), (1, 4), (2, 6), (3, 8)] }]

/-- Concrete range of three dense vectors of length 4, used by witnesses. -/
def denseRangeEx : List (List Int) :=
  [[1, 2, 3, 4], [5, 6, 7, 8], [9, 10, 11, 12]]

end shark

namespace remora

/-- C6: when a shape precondition of syrk is violated (A.size1 different
from C.size1, or C not square) the call fails with a dimension-mismatch
condition before any backend routine is invoked: the size-error flag is
set, no backend call is issued, and the destination C is unchanged. -/
theorem kernels.syrk_size_check (Upper : Bool) (oA oC : Orientation) (A C : Mat)
    (alpha : Int) (st : StatusCode)
    (h : ¬ (A.size1 = C.size1 ∧ C.size1 = C.size2)) :
    (kernels.syrk Upper oA oC A C alpha st).sizeError = true ∧
    (kernels.syrk Upper oA oC A C alpha st).backendCalls = [] ∧
    (kernels.syrk Upper oA oC A C alpha st).C = C := by
  unfold kernels.syrk
  rw [if_neg h]
  exact ⟨rfl, rfl, rfl⟩

theorem kernels.syrk_size_check_witness :
    (¬ (Abad.size1 = Cex.size1 ∧ Cex.size1 = Cex.size2)) ∧
    (kernels.syrk true Orientation.row_major Orientation.row_major Abad Cex 1 StatusCode.kSuccess).sizeError = true ∧
    (kernels.syrk true Orientation.row_major Orientation.row_major Abad Cex 1 StatusCode.kSuccess).backendCalls = [] ∧
    (kernels.syrk true Orientation.row_major Orientation.row_major Abad Cex 1 StatusCode.kSuccess).C = Cex :=
  ⟨by decide,
   kernels.syrk_size_check true Orientation.row_major Orientation.row_major Abad Cex 1
     StatusCode.kSuccess (by decide)⟩

/-- C8: when the native backend routine returns a non-success status code,
the syrk wrapper call ends in the fatal assert (the operation is aborted)
and the backend was invoked exactly once, so there is no retry and no
silent-degrade path. -/
theorem kernels.syrk_backend_failure (Upper : Bool) (oA oC : Orientation) (A C : Mat)
    (alpha : Int) (code : StatusCode)
    (h1 : A.size1 = C.size1) (h2 : C.size1 = C.size2)
    (hcode : code ≠ StatusCode.kSuccess) :
    (kernels.syrk Upper oA oC A C alpha code).fatal = true ∧
    (kernels.syrk Upper oA oC A C alpha code).backendCalls.length = 1 := by
  unfold kernels.syrk
  rw [if_pos ⟨h1, h2⟩]
  exact ⟨by simp [hcode], rfl⟩

theorem kernels.syrk_backend_failure_witness :
    (Aex.size1 = Cex.size1 ∧ Cex.size1 = Cex.size2 ∧ StatusCode.kError 3 ≠ StatusCode.kSuccess) ∧
    (kernels.syrk true Orientation.row_major Orientation.row_major Aex Cex 1 (StatusCode.kError 3)).fatal = true ∧
    (kernels.syrk true Orientation.row_major Orientation.row_major Aex Cex 1 (StatusCode.kError 3)).backendCalls.length = 1 :=
  ⟨⟨rfl, rfl, by decide⟩,
   kernels.syrk_backend_failure true Orientation.row_major Orientation.row_major Aex Cex 1
     (StatusCode.kError 3) rfl rfl (by decide)⟩

/-- C7: on a conformant call, the flags passed to the backend satisfy: the
transpose-A flag is kNo exactly when the orientations of A and C agree; the
layout flag is kRowMajor exactly when the orientation of C is row-major;
and the triangle flag is kUpper exactly when the compile-time Upper flag is
true. -/
theorem kernels.syrk_flags (Upper : Bool) (oA oC : Orientation) (A C : Mat)
    (alpha : Int) (st : StatusCode)
    (h1 : A.size1 = C.size1) (h2 : C.size1 = C.size2) :
    (kernels.syrk Upper oA oC A C alpha st).backendCalls ≠ [] ∧
    ∀ call ∈ (kernels.syrk Upper oA oC A C alpha st).backendCalls,
      (call.transA = Transpose.kNo ↔ oA = oC) ∧
      (call.layout = Layout.kRowMajor ↔ oC = Orientation.row_major) ∧
      (call.triangular = Triangle.kUpper ↔ Upper = true) := by
  unfold kernels.syrk
  rw [if_pos ⟨h1, h2⟩]
  refine ⟨by simp, ?_⟩
  intro call hcall
  simp only [List.mem_singleton] at hcall
  subst hcall
  refine ⟨?_, ?_, ?_⟩
  · by_cases h : oA = oC <;> simp [h]
  · by_cases h : oC = Orientation.row_major <;> simp [h]
  · cases Upper <;> simp [declaredTriangle]

theorem kernels.syrk_flags_witness :
    (Aex.size1 = Cex.size1 ∧ Cex.size1 = Cex.size2) ∧
    (Transpose.kYes = Transpose.kNo ↔ Orientation.row_major = Orientation.column_major) ∧
    (Layout.kColMajor = Layout.kRowMajor ↔ Orientation.column_major = Orientation.row_major) ∧
    (Triangle.kUpper = Triangle.kUpper ↔ true = true) :=
  ⟨⟨rfl, rfl⟩,
   (kernels.syrk_flags true Orientation.row_major Orientation.column_major Aex Cex 1
       StatusCode.kSuccess rfl rfl).2
     { layout := Layout.kColMajor, triangular := Triangle.kUpper, transA := Transpose.kYes,
       n := 2, k := 2, alpha := 1, beta := 1 }
     (by decide)⟩

/-- C1: on a conformant call of syrk, every entry of the declared
triangular half of the destination equals its old value plus alpha times
the corresponding entry of A * A^T; every entry outside that half is
unchanged; with alpha = 0 the whole destination is unchanged; and the
accumulate coefficient passed to the backend routine is the fixed
constant 1. -/
theorem kernels.syrk_correct (Upper : Bool) (oA oC : Orientation) (A C : Mat)
    (alpha : Int) (st : StatusCode)
    (h1 : A.size1 = C.size1) (h2 : C.size1 = C.size2) :
    (∀ i j, i < C.size1 → j < C.size1 →
        triangleContains (declaredTriangle Upper) i j = true →
        (kernels.syrk Upper oA oC A C alpha st).C.entry i j
          = C.entry i j + alpha * dotAAT A A.size2 i j) ∧
    (∀ i j, ¬ (i < C.size1 ∧ j < C.size1 ∧ triangleContains (declaredTriangle Upper) i j = true) →
        (kernels.syrk Upper oA oC A C alpha st).C.entry i j = C.entry i j) ∧
    (∀ i j, (kernels.syrk Upper oA oC A C 0 st).C.entry i j = C.entry i j) ∧
    (∀ call ∈ (kernels.syrk Upper oA oC A C alpha st).backendCalls, call.beta = 1) := by
  unfold kernels.syrk
  rw [if_pos ⟨h1, h2⟩]
  refine ⟨?_, ?_, ?_, ?_⟩
  · intro i j hi hj ht
    simp only [clblastSyrk]
    rw [if_pos ⟨hi, hj, ht⟩, one_mul, add_comm]
  · intro i j h
    simp only [clblastSyrk]
    rw [if_neg h]
  · intro i j
    rw [if_pos ⟨h1, h2⟩]
    simp only [clblastSyrk]
    split
    · rw [zero_mul, zero_add, one_mul]
    · rfl
  · intro call hcall
    simp only [List.mem_singleton] at hcall
    subst hcall
    rfl

theorem kernels.syrk_correct_witness :
    (Aex.size1 = Cex.size1 ∧ Cex.size1 = Cex.size2) ∧
    (kernels.syrk true Orientation.row_major Orientation.row_major Aex Cex 2 StatusCode.kSuccess).C.entry 0 1
      = Cex.entry 0 1 + 2 * dotAAT Aex Aex.size2 0 1 ∧
    (kernels.syrk true Orientation.row_major Orientation.row_major Aex Cex 2 StatusCode.kSuccess).C.entry 1 0
      = Cex.entry 1 0 ∧
    (kernels.syrk true Orientation.row_major Orientation.row_major Aex Cex 0 StatusCode.kSuccess).C.entry 1 1
      = Cex.entry 1 1 :=
  ⟨⟨rfl, rfl⟩,
   (kernels.syrk_correct true Orientation.row_major Orientation.row_major Aex Cex 2
       StatusCode.kSuccess rfl rfl).1 0 1 (by decide) (by decide) (by decide),
   (kernels.syrk_correct true Orientation.row_major Orientation.row_major Aex Cex 2
       StatusCode.kSuccess rfl rfl).2.1 1 0 (by decide),
   (kernels.syrk_correct true Orientation.row_major Orientation.row_major Aex Cex 2
       StatusCode.kSuccess rfl rfl).2.2.1 1 1⟩

theorem zip_foldl_eq_sum (x y : List Int) (init : Int) :
    (List.zip x y).foldl (fun acc p => acc + p.1 * p.2) init
      = init + (List.zipWith (fun a b => a * b) x y).sum := by
  induction x generalizing y init with
  | nil => simp
  | cons a xs ih =>
    cases y with
    | nil => simp
    | cons b ys =>
      simp only [List.zip_cons_cons, List.foldl_cons, List.zipWith_cons_cons, List.sum_cons]
      rw [ih]
      ring

theorem zipWith_mul_sum_eq_range (x y : List Int) (h : x.length = y.length) :
    (List.zipWith (fun a b => a * b) x y).sum
      = ((List.range x.length).map (fun i => x.getD i 0 * y.getD i 0)).sum := by
  induction x generalizing y with
  | nil => simp
  | cons a xs ih =>
    cases y with
    | nil => simp at h
    | cons b ys =>
      have h' : xs.length = ys.length := by simpa using h
      simp only [List.zipWith_cons_cons, List.sum_cons, List.length_cons,
        List.range_succ_eq_map, List.map_cons, List.map_map, List.getD_cons_zero]
      rw [ih ys h']
      congr 1

/-- C2: the dense/dense device dot kernel writes the inner product of x and
y into the result location, equal to the sum over i of x(i) * y(i) for
vectors of equal length, and for length 0 the result is the additive
identity of the element type, since the accumulation starts at zero. -/
theorem bindings.dot_correct (x y : List Int) (h : x.length = y.length) :
    bindings.dot x y = ((List.range x.length).map (fun i => x.getD i 0 * y.getD i 0)).sum ∧
    (x = [] → bindings.dot x y = 0) := by
  constructor
  · unfold bindings.dot inner_product
    rw [zip_foldl_eq_sum, zero_add]
    exact zipWith_mul_sum_eq_range x y h
  · intro hx
    subst hx
    rfl

theorem bindings.dot_correct_witness :
    ([1, 2, 3] : List Int).length = ([4, 5, 6] : List Int).length ∧
    bindings.dot [1, 2, 3] [4, 5, 6]
      = ((List.range ([1, 2, 3] : List Int).length).map
          (fun i => List.getD [1, 2, 3] i 0 * List.getD [4, 5, 6] i 0)).sum :=
  ⟨rfl, (bindings.dot_correct [1, 2, 3] [4, 5, 6] rfl).1⟩

end remora

namespace shark

theorem foldl_add_map_sum (f : SparseVec → Nat) (l : List SparseVec) (a : Nat) :
    l.foldl (fun acc v => acc + f v) a = a + (l.map f).sum := by
  induction l generalizing a with
  | nil => simp
  | cons v vs ih =>
    simp only [List.foldl_cons, List.map_cons, List.sum_cons, ih, Nat.add_assoc]

theorem map_rebuild_eq_self (d : Nat) (l : List SparseVec) (hd : ∀ v ∈ l, v.size = d) :
    l.map (fun v => ({ size := d, nz := v.nz } : SparseVec)) = l := by
  induction l with
  | nil => rfl
  | cons v vs ih =>
    have h1 : v.size = d := hd v (List.mem_cons_self v vs)
    have h2 : ∀ w ∈ vs, w.size = d := fun w hw => hd w (List.mem_cons_of_mem v hw)
    cases v with
    | mk s n =>
      simp only [List.map_cons, ih h2]
      simp at h1
      rw [h1]

/-- C3: for a non-empty range of dense vectors all of length d, the Batch
specialization for blas::vector builds a dense aggregate with exactly
range.length row slots, column dimensionality d taken from the first
element, and rows equal to the range elements in their original order. -/
theorem batchVector_fromRange (range : List (List Int)) (d : Nat)
    (hne : range ≠ []) (hd : ∀ v ∈ range, v.length = d) :
    BatchVector.createBatchFromRange range
      = some { size1 := range.length, size2 := d, rows := range } := by
  cases range with
  | nil => exact absurd rfl hne
  | cons first rest =>
    have hfirst : first.length = d := hd first (List.mem_cons_self first rest)
    simp [BatchVector.createBatchFromRange, hfirst]

theorem batchVector_fromRange_witness :
    (denseRangeEx ≠ [] ∧ ∀ v ∈ denseRangeEx, v.length = 4) ∧
    BatchVector.createBatchFromRange denseRangeEx
      = some { size1 := denseRangeEx.length, size2 := 4, rows := denseRangeEx } :=
  ⟨⟨by decide, by decide⟩, batchVector_fromRange denseRangeEx 4 (by decide) (by decide)⟩

/-- C4: for a non-empty range of compressed vectors of equal declared
dimensionality, the Batch specialization for compressed_vector allocates a
compressed aggregate whose non-zero capacity is exactly the sum of the
non-zero counts of the elements (computed in a first full pass), with one
row slot per element, and reconstructing the elements from the aggregate
gives back the original sparsity patterns and values in order. -/
theorem batchCompressed_fromRange (range : List SparseVec) (d : Nat)
    (hne : range ≠ []) (hd : ∀ v ∈ range, v.size = d) :
    (BatchCompressed.createBatchFromRange range).map (fun b => b.nnz)
      = some ((range.map nonzeroElements).sum) ∧
    (BatchCompressed.createBatchFromRange range).map (fun b => b.size1)
      = some range.length ∧
    (BatchCompressed.createBatchFromRange range).map reconstructElements = some range := by
  cases range with
  | nil => exact absurd rfl hne
  | cons first rest =>
    have hfirst : first.size = d := hd first (List.mem_cons_self first rest)
    refine ⟨?_, ?_, ?_⟩
    · simp [BatchCompressed.createBatchFromRange, foldl_add_map_sum nonzeroElements]
    · simp [BatchCompressed.createBatchFromRange]
    · simp only [BatchCompressed.createBatchFromRange, List.head?_cons, Option.map_some',
        reconstructElements, List.map_map, Option.some.injEq]
      have : ((fun r : List (Nat × Int) => ({ size := first.size, nz := r } : SparseVec))
            ∘ fun v : SparseVec => v.nz)
          = fun v : SparseVec => ({ size := d, nz := v.nz } : SparseVec) := by
        funext v
        simp [Function.comp, hfirst]
      rw [this]
      exact map_rebuild_eq_self d (first :: rest) hd

theorem batchCompressed_fromRange_witness :
    (sparseRangeEx ≠ [] ∧ ∀ v ∈ sparseRangeEx, v.size = 4) ∧
    (BatchCompressed.createBatchFromRange sparseRangeEx).map (fun b => b.nnz) = some 7 ∧
    (BatchCompressed.createBatchFromRange sparseRangeEx).map reconstructElements
      = some sparseRangeEx :=
  ⟨⟨by decide, by decide⟩,
   (batchCompressed_fromRange sparseRangeEx 4 (by decide) (by decide)).1.trans (by decide),
   (batchCompressed_fromRange sparseRangeEx 4 (by decide) (by decide)).2.2⟩

/-- C5 counterexample: ArithmeticBatch.createBatch with blueprint 7 and
size 5 does not produce slots equal to the blueprint (exhibited with
allocation content 0): the claim that every slot equals the blueprint is
false on the code. -/
theorem arithmetic_createBatch_ignores_blueprint :
    ¬ ((detail.ArithmeticBatch.createBatch 0 7 5).length = 5 ∧
       ∀ v ∈ detail.ArithmeticBatch.createBatch 0 7 5, v = 7) := by
  decide

/-- C5 amended: for an arithmetic element type, createBatch produces an
aggregate with exactly the requested number of slots, but the slots hold
the unspecified allocation content rather than copies of the blueprint; the
blueprint-filling behavior belongs to the default (non-arithmetic) batch,
which does produce size copies of the blueprint. -/
theorem arithmetic_createBatch_size_only (uninit input : Int) (size : Nat) :
    (detail.ArithmeticBatch.createBatch uninit input size).length = size ∧
    (∀ v ∈ detail.ArithmeticBatch.createBatch uninit input size, v = uninit) ∧
    (detail.DefaultBatch.createBatch input size).length = size ∧
    (∀ v ∈ detail.DefaultBatch.createBatch input size, v = input) := by
  refine ⟨List.length_replicate size uninit, ?_, List.length_replicate size input, ?_⟩
  · intro v hv
    exact List.eq_of_mem_replicate hv
  · intro v hv
    exact List.eq_of_mem_replicate hv

/-- C9 counterexample: a range of sparse vectors with inconsistent declared
dimensionality (2 and 3) is not rejected: createBatchFromRange runs both
passes and produces an aggregate sized from the first element. -/
theorem batchCompressed_inconsistent_not_rejected :
    BatchCompressed.createBatchFromRange badSparseRange ≠ none ∧
    BatchCompressed.createBatchFromRange badSparseRange
      = some { size1 := 2, size2 := 2, nnz := 3, rows := [[(0, 1)], [(1, 2), (2, 3)]] } := by
  exact ⟨by decide, by decide⟩

/-- C9 amended: the sparse createBatchFromRange performs no
dimensionality-consistency check at all: for every non-empty range,
consistent or not, it sums the non-zero counts, allocates the aggregate
with the dimensionality of the first element as column count, and runs the
copy pass; rejection before the second pass never happens. -/
theorem batchCompressed_no_consistency_check (first : SparseVec) (rest : List SparseVec) :
    BatchCompressed.createBatchFromRange (first :: rest)
      = some { size1 := (first :: rest).length
               size2 := first.size
               nnz := ((first :: rest).map nonzeroElements).sum
               rows := (first :: rest).map (fun v => v.nz) } := by
  simp [BatchCompressed.createBatchFromRange, foldl_add_map_sum nonzeroElements]

/-- C10: the sparse createBatchFromRange reaches its failure branch (the
dereference of the first element used to size the aggregate columns)
exactly on the empty range, so non-emptiness is a precondition of the
sparse specialization as well. -/
theorem batchCompressed_empty_range_error (range : List SparseVec) :
    BatchCompressed.createBatchFromRange range = none ↔ range = [] := by
  cases range with
  | nil => simp [BatchCompressed.createBatchFromRange]
  | cons first rest => simp [BatchCompressed.createBatchFromRange]

end shark
